import Mathlib

/-
Shallow embedding of qutebrowser's vim-like key-sequence engine
(src/qutebrowser/utils/keyparser.py, class KeyParser).

Modelling conventions:
  - Python strings are modelled as `List Char` (Python indexes by code point).
  - The binding dict `self.bindings` is a `List (List Char × String)` with
    key lookup via `List.lookup` (dict keys are unique, so first-match
    lookup agrees with dict access).
  - The mutable instance state (`self._keystring`, `self._timer`) is a
    `PState`; a live QTimer is the `TimerInfo` it would fire with.
  - Side effects (calls to the abstract `self.execute` and emissions of the
    `keystring_updated` signal) are recorded as a list of `Effect`s.
  - `config.get('general', 'cmd_timeout')`, read afresh at each ambiguous
    match, is the `timeout` argument threaded through each event.
  - `QKeySequence(e.key()).toString()` is the opaque `keyToString` field.
  - Python's `handle` has no return statement, so its value is `None`;
    that value is the first component (`Option Bool`, always `none`) of
    the modelled `handle`.
-/

/-- Qt key code for the bare Shift key (Qt.Key_Shift). -/
def Key_Shift : Nat := 0x01000020

/-- Qt key code for the bare Control key (Qt.Key_Control). -/
def Key_Control : Nat := 0x01000021

/-- Qt key code for the bare Meta key (Qt.Key_Meta). -/
def Key_Meta : Nat := 0x01000022

/-- Qt key code for the bare Alt key (Qt.Key_Alt). -/
def Key_Alt : Nat := 0x01000023

/-- A Qt key press event, reduced to the fields `KeyParser` reads:
`e.key()`, the four modifier flags of `e.modifiers()`, and `e.text()`. -/
structure KeyEvent where
  key : Nat
  ctrl : Bool
  alt : Bool
  meta : Bool
  shift : Bool
  text : List Char
deriving DecidableEq

/-- Remove the longest whitespace suffix (helper for `strip`). -/
def dropTrailing (p : Char → Bool) (l : List Char) : List Char :=
  (l.reverse.dropWhile p).reverse

/-- Python's `str.strip()`: remove leading and trailing whitespace
(restricted to the ASCII whitespace recognised by `Char.isWhitespace`). -/
def strip (l : List Char) : List Char :=
  dropTrailing Char.isWhitespace (l.dropWhile Char.isWhitespace)

/-- Result of `_match_key`: the four `MATCH_*` constants, with the found
binding's command attached exactly where the code returns one. -/
inductive MatchResult where
  | nomatch : MatchResult
  | part : MatchResult
  | definitive : String → MatchResult
  | ambiguous : String → MatchResult
deriving DecidableEq

/-- The per-binding comparison of the partial-match loop:
`cmd_input[-1] == binding[len(cmd_input) - 1]` (line 185). Out-of-range
indexing yields `false`; the loop's length guard makes the binding index
in range, and `_match_key` is only reached with nonempty `cmd_input`. -/
def tailCharHit (cmd_input binding : List Char) : Bool :=
  match cmd_input.getLast?, binding.get? (cmd_input.length - 1) with
  | some c, some b => c == b
  | _, _ => false

/-- The partial-match scan of `_match_key` (lines 177-187): some binding,
other than the exact match's key when `exact` is present, is at least as
long as `cmd_input` and agrees with it on the character at index
`len(cmd_input) - 1`. -/
def partScan (bindings : List (List Char × String))
    (exact : Option (List Char × String)) (cmd_input : List Char) : Bool :=
  bindings.any fun p =>
    (!(exact.any fun dm => p.1 == dm.1)) &&
    ((!(decide (p.1.length < cmd_input.length))) && tailCharHit cmd_input p.1)

/-- `KeyParser._match_key` (lines 155-195): look `cmd_input` up among the
bound keychains, run the partial scan, and combine the two answers. -/
def match_key (bindings : List (List Char × String)) (cmd_input : List Char) :
    MatchResult :=
  match bindings.lookup cmd_input,
      partScan bindings ((bindings.lookup cmd_input).map fun v => (cmd_input, v))
        cmd_input with
  | some v, true => MatchResult.ambiguous v
  | some v, false => MatchResult.definitive v
  | none, true => MatchResult.part
  | none, false => MatchResult.nomatch

/-- Python `int` on a nonempty string of decimal digits. -/
def digitsToNat (l : List Char) : Nat :=
  l.foldl (fun n c => n * 10 + (c.toNat - 48)) 0

/-- The count/command split of `_handle_single_key` (lines 129-135): with
count support, `re.match(r'^(\d*)(.*)', keystring)` takes the maximal
leading digit run as the count (absent when the run is empty) and leaves
the rest as the command input; without count support the whole keystring
is the command input and there is never a count. -/
def splitCount (supports_count : Bool) (keystring : List Char) :
    Option Nat × List Char :=
  if supports_count then
    let countstr := keystring.takeWhile Char.isDigit
    let cmd_input := keystring.dropWhile Char.isDigit
    (if countstr = [] then none else some (digitsToNat countstr), cmd_input)
  else
    (none, keystring)

/-- The payload a live `self._timer` would fire with: its interval and the
command/count captured by `partial(self.delayed_exec, binding, count)`. -/
structure TimerInfo where
  interval : Nat
  command : String
  count : Option Nat
deriving DecidableEq

/-- The mutable state of one `KeyParser` instance: `self._keystring` and
`self._timer` (`none` = no live timer). -/
structure PState where
  keystring : List Char
  timer : Option TimerInfo
deriving DecidableEq

/-- An observable side effect: a call of the abstract `self.execute` or an
emission of the `keystring_updated` signal. -/
inductive Effect where
  | execute : String → Option Nat → Effect
  | emitKeystring : List Char → Effect
deriving DecidableEq

/-- The per-instance configuration of a `KeyParser`: the class attribute
`supports_count`, the two binding tables, and Qt's key-to-name function
`QKeySequence(key).toString()`. -/
structure KeyParserModel where
  supports_count : Bool
  bindings : List (List Char × String)
  modifier_bindings : List (String × String)
  keyToString : Nat → String

/-- The modifier descriptor built by the loop over `modmask2str`
(lines 98-100): each held modifier contributes `name + '+'`, in the dict
literal's order Ctrl, Alt, Meta, Shift. -/
def modifierStr (e : KeyEvent) : String :=
  (if e.ctrl then "Ctrl+" else "") ++ (if e.alt then "Alt+" else "") ++
  (if e.meta then "Meta+" else "") ++ (if e.shift then "Shift+" else "")

/-- `KeyParser._handle_modifier_key` (lines 73-108): bare modifier keys and
events with none of Ctrl/Alt/Meta held are not handled; otherwise the
normalized `modstr + keystr` is looked up in `modifier_bindings` — a miss
is logged and consumed, a hit calls `execute(cmdstr)` (count `None`).
Returns the handled flag together with the effects produced. -/
def handle_modifier_key (kp : KeyParserModel) (e : KeyEvent) :
    Bool × List Effect :=
  if e.key = Key_Control ∨ e.key = Key_Alt ∨ e.key = Key_Shift ∨ e.key = Key_Meta
  then
    (false, [])
  else if ¬ (e.ctrl = true ∨ e.alt = true ∨ e.meta = true) then
    (false, [])
  else
    match kp.modifier_bindings.lookup (modifierStr e ++ kp.keyToString e.key) with
    | none => (true, [])
    | some cmdstr => (true, [Effect.execute cmdstr none])

/-- `KeyParser._stop_delayed_exec` (lines 197-202): stop and drop any live
timer. -/
def stop_delayed_exec (s : PState) : PState :=
  { s with timer := none }

/-- `KeyParser._handle_ambiguous_match` (lines 204-226): with a zero
`cmd_timeout` reset the keystring and execute immediately; otherwise start
a single-shot timer carrying the binding and count. -/
def handle_ambiguous_match (timeout : Nat) (binding : String)
    (count : Option Nat) (s : PState) : PState × List Effect :=
  if timeout = 0 then
    ({ s with keystring := [] }, [Effect.execute binding count])
  else
    ({ s with timer := some ⟨timeout, binding, count⟩ }, [])

/-- The four-way dispatch on the match result at the end of
`_handle_single_key` (lines 142-153). -/
def dispatchMatch (timeout : Nat) (count : Option Nat) (m : MatchResult)
    (s : PState) : PState × List Effect :=
  match m with
  | MatchResult.definitive b => ({ s with keystring := [] }, [Effect.execute b count])
  | MatchResult.ambiguous b => handle_ambiguous_match timeout b count s
  | MatchResult.part => (s, [])
  | MatchResult.nomatch => ({ s with keystring := [] }, [])

/-- `KeyParser._handle_single_key` (lines 110-153): strip the event text
and ignore the event when it is empty; otherwise stop any delayed
execution, append the text to the keystring, split off a count, wait for
more input while the command part is empty, and otherwise dispatch on the
match result. -/
def handle_single_key (kp : KeyParserModel) (timeout : Nat) (e : KeyEvent)
    (s : PState) : PState × List Effect :=
  if strip e.text = [] then
    (s, [])
  else
    let s0 := stop_delayed_exec s
    let s1 : PState := { s0 with keystring := s0.keystring ++ strip e.text }
    if (splitCount kp.supports_count s1.keystring).2 = [] then
      (s1, [])
    else
      dispatchMatch timeout (splitCount kp.supports_count s1.keystring).1
        (match_key kp.bindings (splitCount kp.supports_count s1.keystring).2) s1

/-- `KeyParser.delayed_exec` (lines 250-263): drop the timer handle, reset
the keystring, emit the (now empty) keystring, then execute the deferred
command. -/
def delayed_exec (command : String) (count : Option Nat) (_s : PState) :
    PState × List Effect :=
  ({ keystring := [], timer := none },
    [Effect.emitKeystring [], Effect.execute command count])

/-- `KeyParser.handle` (lines 269-281): try the modifier path first; when
it does not consume the event, run the single-key path and emit the
(possibly updated) keystring. The first component is the Python return
value: `handle` has no return statement, so it is always `None`. -/
def handle (kp : KeyParserModel) (timeout : Nat) (e : KeyEvent) (s : PState) :
    Option Bool × PState × List Effect :=
  if (handle_modifier_key kp e).1 then
    (none, s, (handle_modifier_key kp e).2)
  else
    (none, (handle_single_key kp timeout e s).1,
      (handle_modifier_key kp e).2 ++ (handle_single_key kp timeout e s).2 ++
        [Effect.emitKeystring (handle_single_key kp timeout e s).1.keystring])

/-- An occurrence in the event-driven run of one `KeyParser`: a keypress
(with the `cmd_timeout` configuration value current at that moment) or the
firing of the live timer. -/
inductive SysEvent where
  | key : Nat → KeyEvent → SysEvent
  | fire : SysEvent

/-- One step of the event loop: a keypress goes through `handle`; a timer
firing runs `delayed_exec` with the captured command and count (a stopped
timer never fires, so `fire` with no live timer is a no-op). -/
def step (kp : KeyParserModel) (s : PState) : SysEvent → PState × List Effect
  | SysEvent.key t e => ((handle kp t e s).2.1, (handle kp t e s).2.2)
  | SysEvent.fire =>
      match s.timer with
      | none => (s, [])
      | some ti => delayed_exec ti.command ti.count s

/-- Number of `execute` calls in a list of effects. -/
def countExec : List Effect → Nat
  | [] => 0
  | Effect.execute _ _ :: rest => countExec rest + 1
  | Effect.emitKeystring _ :: rest => countExec rest

/-- The spec's notion of a partial candidate for `cmd_input`: some bound
key — other than the exact match's key, when an exact match exists — is at
least as long as `cmd_input` and carries `cmd_input`'s final character at
index `len(cmd_input) - 1`. -/
def PartCandidate (bindings : List (List Char × String))
    (cmd_input : List Char) : Prop :=
  ∃ p ∈ bindings,
    ((bindings.lookup cmd_input).isSome → p.1 ≠ cmd_input) ∧
    cmd_input.length ≤ p.1.length ∧
    p.1.get? (cmd_input.length - 1) = cmd_input.getLast?

example : match_key [(['a'], "x"), (['a', 'b'], "y")] ['a'] =
    MatchResult.ambiguous "x" := by decide

example : match_key [(['y', 'a'], "c")] ['x', 'a'] = MatchResult.part := by
  decide

example : splitCount true ['1', '2', 'j'] = (some 12, ['j']) := by decide

example : strip [' ', 'a', ' '] = ['a'] := by decide

theorem tailCharHit_eq (ci b : List Char) (h : ci ≠ []) :
    tailCharHit ci b = true ↔ b.get? (ci.length - 1) = ci.getLast? := by
  rcases hc : ci.getLast? with _ | c
  · exact absurd (List.getLast?_eq_none_iff.mp hc) h
  · unfold tailCharHit
    rw [hc]
    rcases hb : b.get? (ci.length - 1) with _ | x
    · show false = true ↔ none = some c
      simp
    · show (c == x) = true ↔ some x = some c
      simp only [beq_iff_eq, Option.some_inj]
      exact eq_comm

theorem partScan_iff (bindings : List (List Char × String)) (ci : List Char)
    (h : ci ≠ []) :
    partScan bindings ((bindings.lookup ci).map fun v => (ci, v)) ci = true ↔
      PartCandidate bindings ci := by
  unfold partScan PartCandidate
  rw [List.any_eq_true]
  refine exists_congr fun p => and_congr_right fun _hp => ?_
  rcases hl : bindings.lookup ci with _ | v <;>
    simp [hl, tailCharHit_eq ci p.1 h, Nat.not_lt, and_assoc]

theorem match_key_some_true {bindings : List (List Char × String)}
    {ci : List Char} {v : String} (hv : bindings.lookup ci = some v)
    (hsc : partScan bindings (some (ci, v)) ci = true) :
    match_key bindings ci = MatchResult.ambiguous v := by
  unfold match_key
  rw [hv]
  simp [hsc]

theorem match_key_some_false {bindings : List (List Char × String)}
    {ci : List Char} {v : String} (hv : bindings.lookup ci = some v)
    (hsc : partScan bindings (some (ci, v)) ci = false) :
    match_key bindings ci = MatchResult.definitive v := by
  unfold match_key
  rw [hv]
  simp [hsc]

theorem match_key_none_true {bindings : List (List Char × String)}
    {ci : List Char} (hv : bindings.lookup ci = none)
    (hsc : partScan bindings none ci = true) :
    match_key bindings ci = MatchResult.part := by
  unfold match_key
  rw [hv]
  simp [hsc]

theorem match_key_none_false {bindings : List (List Char × String)}
    {ci : List Char} (hv : bindings.lookup ci = none)
    (hsc : partScan bindings none ci = false) :
    match_key bindings ci = MatchResult.nomatch := by
  unfold match_key
  rw [hv]
  simp [hsc]

/-- Claim C1: for every binding table and nonempty input, `_match_key`
resolves with the spec's precedence — exact plus partial candidate gives
`Ambiguous` with the exact match's command, exact alone gives `Definitive`
with its command, a partial candidate alone gives `Partial`, and otherwise
`NoMatch`. (`_match_key` is only ever called with nonempty input, since
`_handle_single_key` returns first when `cmd_input` is empty.) -/
theorem keyparser_C1 (bindings : List (List Char × String)) (ci : List Char)
    (h : ci ≠ []) :
    (∀ v, bindings.lookup ci = some v →
        (PartCandidate bindings ci →
          match_key bindings ci = MatchResult.ambiguous v) ∧
        (¬ PartCandidate bindings ci →
          match_key bindings ci = MatchResult.definitive v)) ∧
    (bindings.lookup ci = none →
        (PartCandidate bindings ci → match_key bindings ci = MatchResult.part) ∧
        (¬ PartCandidate bindings ci →
          match_key bindings ci = MatchResult.nomatch)) := by
  have hps := partScan_iff bindings ci h
  constructor
  · intro v hv
    rw [hv] at hps
    simp only [Option.map_some'] at hps
    constructor
    · intro hpc
      exact match_key_some_true hv (hps.mpr hpc)
    · intro hpc
      exact match_key_some_false hv
        (Bool.eq_false_iff.mpr fun hx => hpc (hps.mp hx))
  · intro hv
    rw [hv] at hps
    simp only [Option.map_none'] at hps
    constructor
    · intro hpc
      exact match_key_none_true hv (hps.mpr hpc)
    · intro hpc
      exact match_key_none_false hv
        (Bool.eq_false_iff.mpr fun hx => hpc (hps.mp hx))

theorem keyparser_C1_witness :
    match_key [(['a'], "x"), (['a', 'b'], "y")] ['a'] =
      MatchResult.ambiguous "x" :=
  ((keyparser_C1 [(['a'], "x"), (['a', 'b'], "y")] ['a'] (by decide)).1 "x"
      (by decide)).1 (by unfold PartCandidate; decide)

/-- Claim C2: a partial candidate exists exactly when some bound key,
other than the exact match's key when one exists, is at least as long as
the input and carries the input's final character at index
`len(input) - 1`; no full prefix comparison is made, so input `"xa"` is
classified `Partial` against the single binding `"ya"` even though `"xa"`
is not a prefix of `"ya"`. -/
theorem keyparser_C2 (bindings : List (List Char × String)) (ci : List Char)
    (h : ci ≠ []) :
    (partScan bindings ((bindings.lookup ci).map fun v => (ci, v)) ci = true ↔
        PartCandidate bindings ci) ∧
    match_key [(['y', 'a'], "c")] ['x', 'a'] = MatchResult.part ∧
    (['y', 'a']).take (['x', 'a']).length ≠ ['x', 'a'] :=
  ⟨partScan_iff bindings ci h, by decide, by decide⟩

theorem keyparser_C2_witness : PartCandidate [(['a', 'b'], "y")] ['a'] :=
  (keyparser_C2 [(['a', 'b'], "y")] ['a'] (by decide)).1.mp (by decide)

theorem head?_dropWhile_false {α : Type} (p : α → Bool) :
    ∀ l : List α, ((l.dropWhile p).head?).all (fun c => !p c) = true
  | [] => rfl
  | a :: l => by
    rcases hp : p a with _ | _
    · simp [List.dropWhile_cons, hp, Option.all]
    · simpa [List.dropWhile_cons, hp] using head?_dropWhile_false p l

/-- Claim C5: with count support the keystring splits into its maximal
leading run of decimal digits (the count, absent — not zero — when the run
is empty, otherwise its integer value) and the remaining command input;
without count support the whole keystring is the command input and the
count is always absent; in particular `"12j"` splits into count 12 and
command input `"j"` with count support, and is the literal command input
`"12j"` without it. -/
theorem keyparser_C5 (ks : List Char) :
    (∃ d r, splitCount true ks =
        ((if d = [] then none else some (digitsToNat d)), r) ∧
      ks = d ++ r ∧ d.all Char.isDigit = true ∧
      (r.head?.all fun c => !c.isDigit) = true) ∧
    splitCount false ks = (none, ks) ∧
    splitCount true ['1', '2', 'j'] = (some 12, ['j']) ∧
    splitCount false ['1', '2', 'j'] = (none, ['1', '2', 'j']) := by
  refine ⟨⟨ks.takeWhile Char.isDigit, ks.dropWhile Char.isDigit, rfl, ?_, ?_, ?_⟩,
    rfl, by decide, by decide⟩
  · exact (List.takeWhile_append_dropWhile (p := Char.isDigit) (l := ks)).symm
  · rw [List.all_eq_true]
    intro x hx
    exact List.mem_takeWhile_imp hx
  · exact head?_dropWhile_false Char.isDigit ks

/-- Claim C6: when the match is ambiguous and the `cmd_timeout` read at
that moment is zero, the dispatch equals the dispatch of a definitive
match with the same command: the keystring is reset, `execute(cmd, count)`
is emitted immediately, and no timer is started. -/
theorem keyparser_C6 (cmd : String) (count : Option Nat) (s : PState) :
    dispatchMatch 0 count (MatchResult.ambiguous cmd) s =
      dispatchMatch 0 count (MatchResult.definitive cmd) s ∧
    (dispatchMatch 0 count (MatchResult.ambiguous cmd) s).1.keystring = [] ∧
    (dispatchMatch 0 count (MatchResult.ambiguous cmd) s).2 =
      [Effect.execute cmd count] ∧
    (dispatchMatch 0 count (MatchResult.ambiguous cmd) s).1.timer = s.timer :=
  ⟨rfl, rfl, rfl, rfl⟩

theorem handle_modifier_key_false_effects (kp : KeyParserModel) (e : KeyEvent)
    (h : (handle_modifier_key kp e).1 = false) :
    (handle_modifier_key kp e).2 = [] := by
  by_cases h1 : e.key = Key_Control ∨ e.key = Key_Alt ∨ e.key = Key_Shift ∨
      e.key = Key_Meta
  · simp [handle_modifier_key, h1]
  · by_cases h2 : e.ctrl = true ∨ e.alt = true ∨ e.meta = true
    · exfalso
      have ht : (handle_modifier_key kp e).1 = true := by
        unfold handle_modifier_key
        simp only [h1, if_false, if_neg (not_not_intro h2)]
        rcases hl : kp.modifier_bindings.lookup
            (modifierStr e ++ kp.keyToString e.key) with _ | v <;> simp [hl]
      rw [ht] at h
      cases h
    · simp [handle_modifier_key, h1, h2]

theorem handle_empty_text (kp : KeyParserModel) (t : Nat) (e : KeyEvent)
    (s : PState) (h1 : (handle_modifier_key kp e).1 = false)
    (h2 : strip e.text = []) :
    handle kp t e s = (none, s, [Effect.emitKeystring s.keystring]) := by
  have he := handle_modifier_key_false_effects kp e h1
  simp [handle, h1, he, handle_single_key, h2]

theorem handle_single_key_timer_irrel (kp : KeyParserModel) (t : Nat)
    (e : KeyEvent) (s : PState) (h : strip e.text ≠ []) :
    handle_single_key kp t e s = handle_single_key kp t e ⟨s.keystring, none⟩ := by
  simp [handle_single_key, stop_delayed_exec, h]

/-- A parser instance with no bindings, no count support, and a trivial
key-to-name function. -/
def kpEmpty : KeyParserModel := ⟨false, [], [], fun _ => ""⟩

/-- A space-bar press: no modifiers, text a single blank. -/
def evSpace : KeyEvent := ⟨32, false, false, false, false, [' ']⟩

/-- A bare Control press: key `Qt.Key_Control`, Ctrl held, empty text. -/
def evCtrl : KeyEvent := ⟨Key_Control, true, false, false, false, []⟩

/-- Claim C3 counterexample: a space-bar press is not consumed by the
modifier path and strips to empty text, yet `handle` still emits the
`keystring_updated` signal (line 281 runs whenever the modifier path
returns False), contradicting "emits no keystring-changed notification". -/
theorem keyparser_C3_cex :
    (handle_modifier_key kpEmpty evSpace).1 = false ∧
    strip evSpace.text = [] ∧
    Effect.emitKeystring ['x'] ∈ (handle kpEmpty 5 evSpace ⟨['x'], none⟩).2.2 := by
  decide

/-- Claim C3 as amended: an event not consumed by the modifier path whose
stripped text is empty changes no state (keystring and timer are both
unchanged) and triggers no `execute`, but `handle` still emits exactly one
`keystring_updated` notification carrying the unchanged keystring. -/
theorem keyparser_C3_amended (kp : KeyParserModel) (t : Nat) (e : KeyEvent)
    (s : PState) (h1 : (handle_modifier_key kp e).1 = false)
    (h2 : strip e.text = []) :
    (handle kp t e s).2 = (s, [Effect.emitKeystring s.keystring]) := by
  rw [handle_empty_text kp t e s h1 h2]

theorem keyparser_C3_witness :
    (handle kpEmpty 5 evSpace ⟨['x'], none⟩).2 =
      (⟨['x'], none⟩, [Effect.emitKeystring ['x']]) :=
  keyparser_C3_amended kpEmpty 5 evSpace ⟨['x'], none⟩ (by decide) (by decide)

/-- Claim C4 counterexample: with a timer pending, a space-bar press (an
empty-text key event) leaves the prior timer live — `_handle_single_key`
returns before `_stop_delayed_exec` when the stripped text is empty — so
not every further key event cancels the pending timer. -/
theorem keyparser_C4_cex :
    (handle kpEmpty 5 evSpace ⟨['a'], some ⟨100, "c", none⟩⟩).2.1.timer =
      some ⟨100, "c", none⟩ := by
  decide

/-- Claim C4 as amended: a non-modifier key event with nonempty stripped
text cancels the prior timer before anything else happens — the whole
outcome of `handle` is independent of the previously pending timer — while
modifier-consumed events and empty-text events leave the prior timer
pending; at most one timer is live per instance at any time (the state
holds at most one `TimerInfo`). -/
theorem keyparser_C4_amended :
    (∀ (kp : KeyParserModel) (t : Nat) (e : KeyEvent) (s : PState),
        (handle_modifier_key kp e).1 = false → strip e.text ≠ [] →
        handle kp t e s = handle kp t e ⟨s.keystring, none⟩) ∧
    (∀ (kp : KeyParserModel) (t : Nat) (e : KeyEvent) (s : PState),
        (handle_modifier_key kp e).1 = true ∨ strip e.text = [] →
        (handle kp t e s).2.1.timer = s.timer) := by
  constructor
  · intro kp t e s h1 h2
    simp [handle, h1, handle_single_key_timer_irrel kp t e s h2]
  · intro kp t e s h
    rcases h with h | h
    · simp [handle, h]
    · rcases hm : (handle_modifier_key kp e).1 with _ | _
      · simp [handle, hm, handle_single_key, h]
      · simp [handle, hm]

/-- An 'a' press: no modifiers, text `"a"`. -/
def evA : KeyEvent := ⟨65, false, false, false, false, ['a']⟩

theorem keyparser_C4_witness :
    handle kpEmpty 5 evA ⟨[], some ⟨100, "c", none⟩⟩ =
      handle kpEmpty 5 evA ⟨[], none⟩ :=
  keyparser_C4_amended.1 kpEmpty 5 evA ⟨[], some ⟨100, "c", none⟩⟩
    (by decide) (by decide)

/-- Claim C7 counterexample: for a bare modifier keypress (here: the
Control key alone) the entry point `handle` returns `None` — the Python
method has no return statement — so no handled/unhandled indication
(in particular not the claimed "unhandled", i.e. `some false`) reaches
the caller. -/
theorem keyparser_C7_cex :
    (handle kpEmpty 5 evCtrl ⟨[], none⟩).1 = none ∧
      (none : Option Bool) ≠ some false := by
  decide

/-- Claim C7 as amended: the entry point `handle` is total and never
raises, but it returns `None` rather than a handled/unhandled indication;
the indication exists only internally — `_handle_modifier_key` returns the
flag, and for a bare modifier keypress it returns False (unhandled, with
no effects), which makes `handle` fall through to the single-key path. -/
theorem keyparser_C7_amended (kp : KeyParserModel) (t : Nat) (e : KeyEvent)
    (s : PState) :
    (handle kp t e s).1 = none ∧
    ((e.key = Key_Control ∨ e.key = Key_Alt ∨ e.key = Key_Shift ∨
        e.key = Key_Meta) →
      handle_modifier_key kp e = (false, [])) := by
  constructor
  · rcases hm : (handle_modifier_key kp e).1 with _ | _ <;> simp [handle, hm]
  · intro hk
    simp [handle_modifier_key, hk]

theorem keyparser_C7_witness :
    handle_modifier_key kpEmpty evCtrl = (false, []) :=
  (keyparser_C7_amended kpEmpty 5 evCtrl ⟨[], none⟩).2 (Or.inl rfl)

theorem handle_single_key_nonempty (kp : KeyParserModel) (t : Nat)
    (e : KeyEvent) (s : PState) (h : strip e.text ≠ []) :
    handle_single_key kp t e s =
      if (splitCount kp.supports_count (s.keystring ++ strip e.text)).2 = [] then
        (⟨s.keystring ++ strip e.text, none⟩, [])
      else
        dispatchMatch t
          (splitCount kp.supports_count (s.keystring ++ strip e.text)).1
          (match_key kp.bindings
            (splitCount kp.supports_count (s.keystring ++ strip e.text)).2)
          ⟨s.keystring ++ strip e.text, none⟩ := by
  simp [handle_single_key, stop_delayed_exec, h]

/-- Claim C8: the running keystring is reset to empty exactly on a
definitive dispatch (including a zero-timeout ambiguous match), on a
`NoMatch` classification, and on a timer-driven flush; a modifier-consumed
event, an empty-text event, an all-digits keystring, a `Partial` match and
a positive-timeout `Ambiguous` match all keep the keystring unchanged or
extend it by the event's stripped text, never resetting it. -/
theorem keyparser_C8 :
    (∀ (c : String) (n : Option Nat) (s : PState),
        (delayed_exec c n s).1.keystring = []) ∧
    (∀ (kp : KeyParserModel) (t : Nat) (e : KeyEvent) (s : PState),
        (handle_modifier_key kp e).1 = true →
        (handle kp t e s).2.1.keystring = s.keystring) ∧
    (∀ (kp : KeyParserModel) (t : Nat) (e : KeyEvent) (s : PState),
        (handle_modifier_key kp e).1 = false → strip e.text = [] →
        (handle kp t e s).2.1.keystring = s.keystring) ∧
    (∀ (kp : KeyParserModel) (t : Nat) (e : KeyEvent) (s : PState),
        (handle_modifier_key kp e).1 = false → strip e.text ≠ [] →
        ((splitCount kp.supports_count (s.keystring ++ strip e.text)).2 = [] →
          (handle kp t e s).2.1.keystring = s.keystring ++ strip e.text) ∧
        (∀ ci,
          (splitCount kp.supports_count (s.keystring ++ strip e.text)).2 = ci →
          ci ≠ [] →
          (∀ v, match_key kp.bindings ci = MatchResult.definitive v →
              (handle kp t e s).2.1.keystring = []) ∧
          (match_key kp.bindings ci = MatchResult.part →
              (handle kp t e s).2.1.keystring = s.keystring ++ strip e.text) ∧
          (match_key kp.bindings ci = MatchResult.nomatch →
              (handle kp t e s).2.1.keystring = []) ∧
          (∀ v, match_key kp.bindings ci = MatchResult.ambiguous v →
              (handle kp t e s).2.1.keystring =
                if t = 0 then [] else s.keystring ++ strip e.text))) := by
  refine ⟨fun c n s => rfl, ?_, ?_, ?_⟩
  · intro kp t e s h1
    simp [handle, h1]
  · intro kp t e s h1 h2
    simp [handle_empty_text kp t e s h1 h2]
  · intro kp t e s h1 h2
    have hh : (handle kp t e s).2.1 = (handle_single_key kp t e s).1 := by
      simp [handle, h1]
    rw [hh, handle_single_key_nonempty kp t e s h2]
    constructor
    · intro hci
      simp [hci]
    · intro ci hci hne
      rw [hci, if_neg hne]
      refine ⟨fun v hm => ?_, fun hm => ?_, fun hm => ?_, fun v hm => ?_⟩
      · rw [hm]
        rfl
      · rw [hm]
        rfl
      · rw [hm]
        rfl
      · rw [hm]
        by_cases ht : t = 0 <;>
          simp [dispatchMatch, handle_ambiguous_match, ht]

/-- A parser with count support and the single binding `"j"`. -/
def kpJ : KeyParserModel := ⟨true, [(['j'], "cmd_j")], [], fun _ => ""⟩

/-- A 'j' press: no modifiers, text `"j"`. -/
def evJ : KeyEvent := ⟨74, false, false, false, false, ['j']⟩

theorem keyparser_C8_witness :
    (handle kpJ 5 evJ ⟨['1', '2'], none⟩).2.1.keystring = [] :=
  ((keyparser_C8.2.2.2 kpJ 5 evJ ⟨['1', '2'], none⟩ (by decide) (by decide)).2
      ['j'] (by decide) (by decide)).1 "cmd_j" (by decide)

theorem countExec_append (l1 l2 : List Effect) :
    countExec (l1 ++ l2) = countExec l1 + countExec l2 := by
  induction l1 with
  | nil => simp [countExec]
  | cons a l ih =>
    cases a
    · simp [countExec, ih]
      omega
    · simp [countExec, ih]

theorem handle_single_key_timer_exec (kp : KeyParserModel) (t : Nat)
    (e : KeyEvent) (s : PState) (h : strip e.text ≠ []) :
    ((handle_single_key kp t e s).1.timer = none ∨
      (t ≠ 0 ∧ ∃ c n, (handle_single_key kp t e s).1.timer = some ⟨t, c, n⟩ ∧
        match_key kp.bindings
          (splitCount kp.supports_count (s.keystring ++ strip e.text)).2 =
          MatchResult.ambiguous c)) ∧
    countExec (handle_single_key kp t e s).2 ≤ 1 := by
  rw [handle_single_key_nonempty kp t e s h]
  by_cases hci :
      (splitCount kp.supports_count (s.keystring ++ strip e.text)).2 = []
  · simp [hci, countExec]
  · rw [if_neg hci]
    rcases hm : match_key kp.bindings
        (splitCount kp.supports_count (s.keystring ++ strip e.text)).2 with
      _ | _ | v | v
    · exact ⟨Or.inl rfl, by simp [dispatchMatch, countExec]⟩
    · exact ⟨Or.inl rfl, by simp [dispatchMatch, countExec]⟩
    · exact ⟨Or.inl rfl, by simp [dispatchMatch, countExec]⟩
    · by_cases ht : t = 0
      · refine ⟨Or.inl ?_, ?_⟩ <;>
          simp [dispatchMatch, handle_ambiguous_match, ht, countExec]
      · refine ⟨Or.inr ⟨ht, v,
          (splitCount kp.supports_count (s.keystring ++ strip e.text)).1,
          ?_, rfl⟩, ?_⟩ <;>
          simp [dispatchMatch, handle_ambiguous_match, ht, countExec]

/-- Claim C9: a pending deferred command cannot survive its cancellation.
A non-modifier key event with nonempty text (the only kind that cancels)
leaves either no timer or only a timer freshly created from the new
input's own ambiguous classification, and triggers at most one `execute`
itself; a fire with no live timer does nothing, and a fire executes
exactly the command currently held by the live timer — so of the
superseded deferred command and the newer input's command, at most one
ever fires. -/
theorem keyparser_C9 :
    (∀ (kp : KeyParserModel) (t : Nat) (e : KeyEvent) (s : PState)
        (ti : TimerInfo),
        s.timer = some ti → (handle_modifier_key kp e).1 = false →
        strip e.text ≠ [] →
        ((step kp s (SysEvent.key t e)).1.timer = none ∨
          (t ≠ 0 ∧ ∃ c n,
            (step kp s (SysEvent.key t e)).1.timer = some ⟨t, c, n⟩ ∧
            match_key kp.bindings
              (splitCount kp.supports_count (s.keystring ++ strip e.text)).2 =
              MatchResult.ambiguous c)) ∧
        countExec (step kp s (SysEvent.key t e)).2 ≤ 1) ∧
    (∀ (kp : KeyParserModel) (s : PState), s.timer = none →
        step kp s SysEvent.fire = (s, [])) ∧
    (∀ (kp : KeyParserModel) (s : PState) (ti : TimerInfo),
        s.timer = some ti →
        step kp s SysEvent.fire =
          (⟨[], none⟩,
            [Effect.emitKeystring [], Effect.execute ti.command ti.count])) := by
  refine ⟨?_, ?_, ?_⟩
  · intro kp t e s ti hti h1 h2
    have hk := handle_single_key_timer_exec kp t e s h2
    have hst : (step kp s (SysEvent.key t e)).1 =
        (handle_single_key kp t e s).1 := by
      simp [step, handle, h1]
    have hef : countExec (step kp s (SysEvent.key t e)).2 =
        countExec (handle_single_key kp t e s).2 := by
      simp [step, handle, h1, handle_modifier_key_false_effects kp e h1,
        countExec_append, countExec]
    rw [hst, hef]
    exact hk
  · intro kp s h
    simp [step, h]
  · intro kp s ti h
    simp [step, h, delayed_exec]

theorem keyparser_C9_witness :
    step kpEmpty ⟨['a'], none⟩ SysEvent.fire = (⟨['a'], none⟩, []) :=
  keyparser_C9.2.1 kpEmpty ⟨['a'], none⟩ rfl

theorem dropWhile_eq_nil_of_all {α : Type} (p : α → Bool) (l : List α)
    (h : ∀ c ∈ l, p c = true) : l.dropWhile p = [] := by
  induction l with
  | nil => rfl
  | cons a l ih =>
    rw [List.dropWhile_cons, if_pos (h a (List.mem_cons_self a l))]
    exact ih fun c hc => h c (List.mem_cons_of_mem a hc)

theorem strip_eq_nil_of_all_ws (l : List Char)
    (h : ∀ c ∈ l, c.isWhitespace = true) : strip l = [] := by
  unfold strip dropTrailing
  rw [dropWhile_eq_nil_of_all _ l h]
  rfl

theorem getLast?_dropWhile {α : Type} (p : α → Bool) (l : List α)
    (h : l.dropWhile p ≠ []) : (l.dropWhile p).getLast? = l.getLast? := by
  induction l with
  | nil => simp at h
  | cons a l ih =>
    rw [List.dropWhile_cons] at h ⊢
    by_cases hp : p a = true
    · rw [if_pos hp] at h ⊢
      cases l with
      | nil => simp at h
      | cons b l' => rw [ih h, List.getLast?_cons_cons]
    · rw [if_neg hp]

theorem strip_getLast_not_ws (l : List Char) :
    ((strip l).getLast?.all fun c => !c.isWhitespace) = true := by
  unfold strip dropTrailing
  rw [List.getLast?_reverse]
  exact head?_dropWhile_false Char.isWhitespace _

theorem strip_head_not_ws (l : List Char) :
    ((strip l).head?.all fun c => !c.isWhitespace) = true := by
  unfold strip dropTrailing
  rw [List.head?_reverse]
  by_cases h : (l.dropWhile Char.isWhitespace).reverse.dropWhile
      Char.isWhitespace = []
  · rw [h]
    rfl
  · rw [getLast?_dropWhile _ _ h, List.getLast?_reverse]
    exact head?_dropWhile_false Char.isWhitespace l

/-- A parser with the single binding `"xxb"`. -/
def kpXB : KeyParserModel := ⟨false, [([ 'x', 'x', 'b'], "c")], [], fun _ => ""⟩

/-- A press delivering the (hypothetical) multi-character text `"a b"`
with an interior blank. -/
def evASpaceB : KeyEvent := ⟨66, false, false, false, false, ['a', ' ', 'b']⟩

/-- Claim C10 counterexample: `strip` removes only leading and trailing
whitespace, so an event whose text carries an interior blank appends that
blank to the running keystring — a whitespace character does end up in the
keystring, contradicting "no whitespace character is ever appended". -/
theorem keyparser_C10_cex :
    ' ' ∈ (handle kpXB 5 evASpaceB ⟨[], none⟩).2.1.keystring ∧
      (' ').isWhitespace = true := by
  decide

/-- Claim C10 as amended: the event text is stripped of leading and
trailing whitespace, so a keypress whose text is entirely whitespace (for
example the space bar) is treated as empty text and ignored by the
accumulation path, and the appended text never starts or ends with a
whitespace character; interior whitespace of a single event's text,
however, is appended verbatim. -/
theorem keyparser_C10_amended (kp : KeyParserModel) (t : Nat) (e : KeyEvent)
    (s : PState) :
    ((∀ c ∈ e.text, c.isWhitespace = true) →
        (handle_modifier_key kp e).1 = false →
        (handle kp t e s).2 = (s, [Effect.emitKeystring s.keystring])) ∧
    ((strip e.text).head?.all fun c => !c.isWhitespace) = true ∧
    ((strip e.text).getLast?.all fun c => !c.isWhitespace) = true := by
  refine ⟨fun hw h1 => ?_, strip_head_not_ws e.text, strip_getLast_not_ws e.text⟩
  rw [handle_empty_text kp t e s h1 (strip_eq_nil_of_all_ws e.text hw)]

theorem keyparser_C10_witness :
    (handle kpEmpty 5 evSpace ⟨['k'], none⟩).2 =
      (⟨['k'], none⟩, [Effect.emitKeystring ['k']]) :=
  (keyparser_C10_amended kpEmpty 5 evSpace ⟨['k'], none⟩).1 (by decide) (by decide)
